import Mathlib

/-!
# Verification of the gda-backup reconciliation engine

A shallow embedding, in Lean 4, of the parts of the `gda-backup` Rust
repository that its specification makes claims about: the `HashTracker`
metadata record and its DynamoDB serialisation (`src/dynamodb.rs`), the
local catalogue diff queries (`src/lib.rs`), the S3 client operations
(`src/s3.rs`), the reconciliation engine's upload and delete passes
(`src/backup.rs`), and the bootstrap path (`src/restore.rs`).

Conventions of the embedding:
* timestamps (`chrono::DateTime<Utc>`) are modelled as `Int` seconds since
  the epoch, matching the serialisation `expiration.timestamp()`;
* `std::collections::HashSet<String>` is modelled as `Finset String`
  (unordered, duplicate-free), and the DynamoDB string-set (`SS`)
  attribute, which likewise disallows duplicates, as `Finset String`;
* the DynamoDB table is an association list from the `hash` key to the
  stored attributes; `put_item` is an unconditional upsert and
  `delete_item` an unconditional removal, as in the AWS API;
* fallible remote calls are modelled by their result values
  (`Bool`/`Option`/`Except`) supplied as inputs, since the engine branches
  only on success or failure of each call.
-/

namespace GdaBackup

/-- `const NONE_STR: &str = "NONE";` — the sentinel stored in the
`file_names` string-set attribute when the path set is empty
(`src/dynamodb.rs`). -/
def NONE_STR : String := "NONE"

/-- The `HashTracker` record of `src/dynamodb.rs`: a content hash, an
expiration timestamp (seconds since epoch) and the set of file paths that
currently resolve to this content. -/
structure HashTracker where
  hash : String
  expiration : Int
  file_names : Finset String
deriving DecidableEq

namespace HashTracker

/-- `HashTracker::new(hash, expiration)` — empty path set. -/
def new (hash : String) (expiration : Int) : HashTracker :=
  { hash := hash, expiration := expiration, file_names := ∅ }

/-- `HashTracker::add_file_name`: `self.file_names.insert(file_name)`. -/
def add_file_name (t : HashTracker) (file_name : String) : HashTracker :=
  { t with file_names := insert file_name t.file_names }

/-- `HashTracker::del_file_name`: `self.file_names.remove(&file_name)`. -/
def del_file_name (t : HashTracker) (file_name : String) : HashTracker :=
  { t with file_names := t.file_names.erase file_name }

/-- `HashTracker::has_files`: `self.file_names.len() > 0`. -/
def has_files (t : HashTracker) : Bool :=
  decide (0 < t.file_names.card)

/-- `HashTracker::is_expired`: `self.expiration < Utc::now()`; the current
time is passed explicitly. -/
def is_expired (t : HashTracker) (now : Int) : Bool :=
  decide (t.expiration < now)

/-- `HashTracker::import(hash, expiration, file_names)` (renamed here
because of the Lean keyword): collect the attribute's strings into a set,
then remove the sentinel `"NONE"` (`src/dynamodb.rs` lines 133-144).  The
`SS` attribute is a set already, so the `Vec<String> → HashSet<String>`
collection is the identity on the modelled `Finset`. -/
def importTracker (hash : String) (expiration : Int)
    (file_names : Finset String) : HashTracker :=
  ({ hash := hash, expiration := expiration, file_names := file_names }
    : HashTracker).del_file_name NONE_STR

end HashTracker

/-- One stored item of the metadata table: the `file_names` string-set
attribute and the `expiration` number attribute (the `hash` attribute is
the association-list key). -/
structure TableItem where
  file_names : Finset String
  expiration : Int
deriving DecidableEq

/-- The metadata store: DynamoDB table keyed by `hash`. -/
def MetaStore : Type := List (String × TableItem)

instance : DecidableEq MetaStore := by
  unfold MetaStore; infer_instance

/-- `get_item` on the table: first (only) binding of the key. -/
def getItem (store : MetaStore) (hash : String) : Option TableItem :=
  (store.find? (fun p => p.1 = hash)).map Prod.snd

/-- `put_item`: unconditional upsert of the key's binding. -/
def putItem (store : MetaStore) (hash : String) (item : TableItem) : MetaStore :=
  (hash, item) :: store.filter (fun p => p.1 ≠ hash)

/-- `delete_item`: unconditional removal of the key's binding. -/
def deleteItem (store : MetaStore) (hash : String) : MetaStore :=
  store.filter (fun p => p.1 ≠ hash)

namespace HashTracker

/-- `HashTracker::put` (`src/dynamodb.rs` lines 247-266): serialise
`file_names` as itself when non-empty and as the singleton `["NONE"]`
when empty, and upsert the item under the `hash` key. -/
def put (t : HashTracker) (store : MetaStore) : MetaStore :=
  let file_names : Finset String :=
    if t.has_files then t.file_names else {NONE_STR}
  putItem store t.hash { file_names := file_names, expiration := t.expiration }

/-- `HashTracker::delete` (`src/dynamodb.rs` lines 284-291). -/
def delete (t : HashTracker) (store : MetaStore) : MetaStore :=
  deleteItem store t.hash

/-- `HashTracker::get` (`src/dynamodb.rs` lines 176-199): read the item,
build a tracker through `import` (which strips the sentinel), then strip
the sentinel once more, as the source does. -/
def get (store : MetaStore) (hash : String) : Option HashTracker :=
  (getItem store hash).map fun item =>
    (importTracker hash item.expiration item.file_names).del_file_name
      NONE_STR

/-- `HashTracker::update` (`src/dynamodb.rs` lines 309-318):
`if !self.has_files() && self.is_expired() { delete } else { put }`. -/
def update (t : HashTracker) (now : Int) (store : MetaStore) : MetaStore :=
  if !t.has_files && t.is_expired now then t.delete store else t.put store

end HashTracker

/-- The metadata-store write performed by `complete_delete` after a
successful S3 delete (`src/backup.rs` lines 648-680):
`if !hash_tracker.has_files() && hash_tracker.expiration < Utc::now()`
the tracker is deleted, otherwise it is put. -/
def complete_delete_disposition (t : HashTracker) (now : Int)
    (store : MetaStore) : MetaStore :=
  if !t.has_files && decide (t.expiration < now) then t.delete store
  else t.put store

section BasicLemmas

lemma has_files_iff (t : HashTracker) :
    t.has_files = true ↔ t.file_names ≠ ∅ := by
  simp [HashTracker.has_files, Finset.card_pos, Finset.nonempty_iff_ne_empty]

lemma getItem_putItem (store : MetaStore) (hash : String) (item : TableItem) :
    getItem (putItem store hash item) hash = some item := by
  simp [getItem, putItem, List.find?]

lemma getItem_deleteItem (store : MetaStore) (hash : String) :
    getItem (deleteItem store hash) hash = none := by
  unfold getItem deleteItem
  have hfind : List.find? (fun p => decide (p.1 = hash))
      (List.filter (fun p => decide (p.1 ≠ hash)) store) = none := by
    rw [List.find?_eq_none]
    intro p hp
    have hmem := List.of_mem_filter hp
    simp only [decide_eq_true_eq] at hmem ⊢
    exact hmem
  rw [hfind]
  rfl

end BasicLemmas

/-- **C7** — Sentinel round-trip.  Writing a `HashTracker` whose path set
is empty stores the single sentinel element `"NONE"` in the `file_names`
attribute; writing one with a non-empty path set stores exactly that set;
and for every tracker whose path set does not contain the literal string
`"NONE"`, a `put` followed by a `get` of the same hash yields a tracker
equal to the original (in particular, same hash and same path set). -/
theorem c7_sentinel_roundtrip (t : HashTracker) (store : MetaStore) :
    (t.file_names = ∅ →
      getItem (t.put store) t.hash =
        some { file_names := {NONE_STR}, expiration := t.expiration }) ∧
    (t.file_names ≠ ∅ →
      getItem (t.put store) t.hash =
        some { file_names := t.file_names, expiration := t.expiration }) ∧
    (NONE_STR ∉ t.file_names →
      HashTracker.get (t.put store) t.hash = some t) := by
  refine ⟨fun hemp => ?_, fun hne => ?_, fun hnone => ?_⟩
  · have : t.has_files = false := by
      simp [HashTracker.has_files, hemp]
    simp [HashTracker.put, this, getItem_putItem]
  · have : t.has_files = true := (has_files_iff t).mpr hne
    simp [HashTracker.put, this, getItem_putItem]
  · cases t with
    | mk h e fns =>
      simp only at hnone
      rcases Decidable.em (fns = ∅) with hemp | hne
      · have hff : HashTracker.has_files ⟨h, e, fns⟩ = false := by
          simp [HashTracker.has_files, hemp]
        simp [HashTracker.get, HashTracker.put, hff, getItem_putItem,
          HashTracker.importTracker, HashTracker.del_file_name, hemp,
          HashTracker.has_files, Finset.erase_singleton]
      · have hft : HashTracker.has_files ⟨h, e, fns⟩ = true :=
          (has_files_iff ⟨h, e, fns⟩).mpr hne
        simp [HashTracker.get, HashTracker.put, hft, getItem_putItem,
          HashTracker.importTracker, HashTracker.del_file_name,
          Finset.erase_eq_self.mpr hnone]

/-- Witness for `c7_sentinel_roundtrip` at a concrete tracker. -/
theorem c7_sentinel_roundtrip_witness :
    getItem (HashTracker.put ⟨"h", 5, {"a"}⟩ []) "h" =
        some { file_names := {"a"}, expiration := 5 } ∧
    HashTracker.get (HashTracker.put ⟨"h", 5, {"a"}⟩ []) "h" =
        some ⟨"h", 5, {"a"}⟩ := by
  refine ⟨?_, ?_⟩
  · exact (c7_sentinel_roundtrip ⟨"h", 5, {"a"}⟩ []).2.1 (by decide)
  · exact (c7_sentinel_roundtrip ⟨"h", 5, {"a"}⟩ []).2.2 (by decide)

/-- **C4** — Tracker disposition rule.  Both `HashTracker::update` and the
delete path of `complete_delete` remove the record from the metadata
store exactly when the tracker's path set is empty and its expiration is
in the past; in every other case the serialised tracker is upserted. -/
theorem c4_tracker_disposition (t : HashTracker) (now : Int)
    (store : MetaStore) :
    (t.file_names = ∅ ∧ t.expiration < now →
      getItem (t.update now store) t.hash = none ∧
      getItem (complete_delete_disposition t now store) t.hash = none) ∧
    (¬(t.file_names = ∅ ∧ t.expiration < now) →
      getItem (t.update now store) t.hash =
        some { file_names := if t.has_files then t.file_names else {NONE_STR},
               expiration := t.expiration } ∧
      getItem (complete_delete_disposition t now store) t.hash =
        some { file_names := if t.has_files then t.file_names else {NONE_STR},
               expiration := t.expiration }) := by
  constructor
  · rintro ⟨hemp, hexp⟩
    have hff : t.has_files = false := by
      simp [HashTracker.has_files, hemp]
    have hie : t.is_expired now = true := by
      simp [HashTracker.is_expired, hexp]
    constructor
    · simp [HashTracker.update, hff, hie, HashTracker.delete, getItem_deleteItem]
    · simp [complete_delete_disposition, hff, hexp, HashTracker.delete,
        getItem_deleteItem]
  · intro hnot
    have hcase : t.has_files = true ∨ ¬ t.expiration < now := by
      by_cases hemp : t.file_names = ∅
      · right; intro hexp; exact hnot ⟨hemp, hexp⟩
      · left; exact (has_files_iff t).mpr hemp
    have hguard : (!t.has_files && t.is_expired now) = false := by
      rcases hcase with hft | hexp
      · simp [hft]
      · simp [HashTracker.is_expired, hexp]
    constructor
    · simp only [HashTracker.update, hguard, Bool.false_eq_true, if_false]
      simp [HashTracker.put, getItem_putItem]
    · have hguard' : (!t.has_files && decide (t.expiration < now)) = false := by
        simpa [HashTracker.is_expired] using hguard
      simp only [complete_delete_disposition, hguard', Bool.false_eq_true,
        if_false]
      simp [HashTracker.put, getItem_putItem]

/-- Witness for `c4_tracker_disposition`: an expired empty tracker is
deleted; a tracker holding a path is upserted. -/
theorem c4_tracker_disposition_witness :
    (getItem (HashTracker.update ⟨"h", 3, ∅⟩ 7 [("h", ⟨{NONE_STR}, 3⟩)]) "h"
        = none) ∧
    (getItem (HashTracker.update ⟨"h", 3, {"a"}⟩ 7 []) "h"
        = some { file_names := {"a"}, expiration := 3 }) := by
  constructor
  · exact ((c4_tracker_disposition ⟨"h", 3, ∅⟩ 7 [("h", ⟨{NONE_STR}, 3⟩)]).1
      ⟨rfl, by decide⟩).1
  · have h := (c4_tracker_disposition ⟨"h", 3, {"a"}⟩ 7 []).2
      (by intro hc; exact absurd hc.1 (by decide))
    simpa using h.1

/-! ## Local catalogue (`src/models.rs`, `src/schema.rs`, `src/lib.rs`) -/

/-- A row of the `local_state` table: a path seen by the current scan and
its modification time. -/
structure LocalFile where
  file_path : String
  modified : Int
deriving DecidableEq

/-- A row of the `glacier_state` table: a path known to have been
uploaded, its content hash, modification time, upload time and
pending-delete marker (the union of the columns used across
`src/models.rs`, `src/schema.rs` and `src/backup.rs`). -/
structure GlacierFile where
  file_path : String
  file_hash : Option String
  modified : Int
  uploaded : Option Int
  pending_delete : Bool
deriving DecidableEq

/-- The local catalogue: the `local_state` and `glacier_state` relations,
each keyed by `file_path`. -/
structure Catalogue where
  local_state : List LocalFile
  glacier_state : List GlacierFile
deriving DecidableEq

/-- `get_new_files` (`src/lib.rs` lines 145-153):
`local_state.left_join(glacier_state)` filtered on the glacier path being
null — the `LocalFile` rows with no matching `glacier_state` row. -/
def get_new_files (c : Catalogue) : List LocalFile :=
  c.local_state.filter fun l =>
    !(c.glacier_state.any fun g => g.file_path = l.file_path)

/-- `get_changed_files` (`src/lib.rs` lines 169-176):
`local_state.inner_join(glacier_state.on(path = path))` filtered on
`glacier.modified < local.modified`, selecting the `LocalFile` side. -/
def get_changed_files (c : Catalogue) : List LocalFile :=
  ((c.local_state.map fun l =>
      (c.glacier_state.filter fun g => g.file_path = l.file_path).map
        fun g => (l, g)).flatten.filter
    fun p => p.2.modified < p.1.modified).map Prod.fst

/-- `get_missing_files` (`src/lib.rs` lines 191-199):
`glacier_state.left_join(local_state)` filtered on the local path being
null — the `GlacierFile` rows with no matching `local_state` row. -/
def get_missing_files (c : Catalogue) : List GlacierFile :=
  c.glacier_state.filter fun g =>
    !(c.local_state.any fun l => l.file_path = g.file_path)

/-- **C8** — Diff queries.  `get_new_files` returns exactly the
`LocalFile` rows whose path has no `GlacierFile` row; `get_changed_files`
returns exactly the `LocalFile` rows that join to a `GlacierFile` row
with the same path and strictly greater local mtime (equal mtimes
excluded); `get_missing_files` returns exactly the `GlacierFile` rows
whose path has no `LocalFile` row.  All three are pure functions of the
catalogue, hence side-effect-free. -/
theorem c8_diff_queries (c : Catalogue) (l : LocalFile) (g : GlacierFile) :
    (l ∈ get_new_files c ↔
      l ∈ c.local_state ∧
        ∀ g0 ∈ c.glacier_state, g0.file_path ≠ l.file_path) ∧
    (l ∈ get_changed_files c ↔
      l ∈ c.local_state ∧
        ∃ g0 ∈ c.glacier_state,
          g0.file_path = l.file_path ∧ g0.modified < l.modified) ∧
    (g ∈ get_missing_files c ↔
      g ∈ c.glacier_state ∧
        ∀ l0 ∈ c.local_state, l0.file_path ≠ g.file_path) := by
  refine ⟨?_, ?_, ?_⟩
  · simp [get_new_files, List.mem_filter]
  · constructor
    · intro hmem
      obtain ⟨p, hp, hfst⟩ := List.mem_map.mp hmem
      obtain ⟨hpj, hlt⟩ := List.mem_filter.mp hp
      obtain ⟨inner, hinner, hpin⟩ := List.mem_flatten.mp hpj
      obtain ⟨l1, hl1, hmap⟩ := List.mem_map.mp hinner
      rw [← hmap] at hpin
      obtain ⟨g1, hg1, hpair⟩ := List.mem_map.mp hpin
      obtain ⟨hg1m, hpathd⟩ := List.mem_filter.mp hg1
      subst hpair
      simp only at hfst hlt
      subst hfst
      exact ⟨hl1, g1, hg1m, by simpa using hpathd, by simpa using hlt⟩
    · rintro ⟨hl, g0, hg0, hpath, hlt⟩
      refine List.mem_map.mpr ⟨(l, g0), List.mem_filter.mpr ⟨?_,
        by simpa using hlt⟩, rfl⟩
      refine List.mem_flatten.mpr
        ⟨(c.glacier_state.filter fun g1 => g1.file_path = l.file_path).map
            fun g1 => (l, g1),
          List.mem_map.mpr ⟨l, hl, rfl⟩, ?_⟩
      exact List.mem_map.mpr
        ⟨g0, List.mem_filter.mpr ⟨hg0, by simpa using hpath⟩, rfl⟩
  · simp [get_missing_files, List.mem_filter]

/-! ## S3 upload (`src/s3.rs`: `put`, `put_multipart`) -/

/-- `const MULTIPART_UPLOAD_THRESHOLD: u64 = 1024 * 1024 * 100;` -/
def MULTIPART_UPLOAD_THRESHOLD : Nat := 1024 * 1024 * 100

/-- `const MIN_CHUNK_SIZE: u64 = 1024 * 1024 * 5;` -/
def MIN_CHUNK_SIZE : Nat := 1024 * 1024 * 5

/-- `const MAX_CHUNKS: u64 = 10000;` -/
def MAX_CHUNKS : Nat := 10000

/-- `const MAX_S3_OBJECT_SIZE: u64 = 1024 * 1024 * 1024 * 1024 * 5;` -/
def MAX_S3_OBJECT_SIZE : Nat := 1024 * 1024 * 1024 * 1024 * 5

/-- The `chunk_count` / `size_of_last_chunk` computation performed by the
body of the `while` loop of `put_multipart` (`src/s3.rs` lines 212-231).
The body recomputes both from `file_size` and `MIN_CHUNK_SIZE` on every
iteration — it never involves the doubling `chunk_size` — so the pair is a
function of `file_size` alone. -/
def chunkCountRaw (file_size : Nat) : Nat × Nat :=
  let chunk_count := file_size / MIN_CHUNK_SIZE + 1
  let size_of_last_chunk := file_size % MIN_CHUNK_SIZE
  if size_of_last_chunk = 0 then (chunk_count - 1, MIN_CHUNK_SIZE)
  else (chunk_count, size_of_last_chunk)

/-- The `while chunk_count > MAX_CHUNKS` loop of `put_multipart`
(`src/s3.rs` lines 208-231), entered unconditionally because
`chunk_count` is initialised to `MAX_CHUNKS + 1`.  Each iteration
recomputes the chunk count, errors with "File too large" when
`chunk_count * chunk_size > MAX_S3_OBJECT_SIZE`, and otherwise doubles
`chunk_size` while the count still exceeds `MAX_CHUNKS`.  Terminates
because the doubling `chunk_size` eventually trips the size check. -/
def chunkLoop (file_size chunk_size : Nat) (h : 0 < chunk_size) :
    Except String (Nat × Nat) :=
  if hbig : (chunkCountRaw file_size).1 * chunk_size > MAX_S3_OBJECT_SIZE then
    .error "File too large. Max S3 object size is 5TiB"
  else if hgt : (chunkCountRaw file_size).1 > MAX_CHUNKS then
    chunkLoop file_size (chunk_size * 2) (by omega)
  else .ok (chunkCountRaw file_size)
termination_by MAX_S3_OBJECT_SIZE + 1 - chunk_size
decreasing_by
  have h1 : (chunkCountRaw file_size).1 * chunk_size ≤ MAX_S3_OBJECT_SIZE :=
    Nat.le_of_not_lt hbig
  have hcc : 0 < (chunkCountRaw file_size).1 := by omega
  have hcs : chunk_size ≤ MAX_S3_OBJECT_SIZE :=
    le_trans (Nat.le_mul_of_pos_left chunk_size hcc) h1
  omega

/-- One `upload_part` request of the multipart upload: the part number and
the byte offset/length read from the source path. -/
structure UploadPart where
  part_number : Nat
  offset : Nat
  length : Nat
deriving DecidableEq

/-- `put_multipart` (`src/s3.rs` lines 196-283): run the chunk-size loop,
then issue one `upload_part` per chunk index, in order, with
`offset = chunk_index * MIN_CHUNK_SIZE`,
`length = size_of_last_chunk` for the final index and `MIN_CHUNK_SIZE`
otherwise, and `part_number = chunk_index + 1`; the parts are then
finalised by a single `complete_multipart_upload` call.  The result is
the ordered list of `upload_part` requests, or the refusal error. -/
def put_multipart (file_size : Nat) : Except String (List UploadPart) :=
  match chunkLoop file_size MIN_CHUNK_SIZE (by decide) with
  | .error e => .error e
  | .ok (chunk_count, size_of_last_chunk) =>
    .ok ((List.range chunk_count).map fun chunk_index =>
      { part_number := chunk_index + 1,
        offset := chunk_index * MIN_CHUNK_SIZE,
        length := if chunk_count - 1 = chunk_index then size_of_last_chunk
                  else MIN_CHUNK_SIZE })

/-- The plan chosen by `s3::put`. -/
inductive PutPlan where
  | single
  | multipart (parts : List UploadPart)
deriving DecidableEq

/-- `s3::put` (`src/s3.rs` lines 144-163): one whole-file `put_object`
call unless `file_size > MULTIPART_UPLOAD_THRESHOLD`, in which case
`put_multipart` is used. -/
def s3_put (file_size : Nat) : Except String PutPlan :=
  if file_size > MULTIPART_UPLOAD_THRESHOLD then
    (put_multipart file_size).map PutPlan.multipart
  else .ok PutPlan.single

section ChunkLoopLemmas

lemma chunkCountRaw_fst (file_size : Nat) :
    (chunkCountRaw file_size).1 =
      if file_size % MIN_CHUNK_SIZE = 0 then file_size / MIN_CHUNK_SIZE
      else file_size / MIN_CHUNK_SIZE + 1 := by
  unfold chunkCountRaw
  split <;> simp_all

lemma chunkCountRaw_snd (file_size : Nat) :
    (chunkCountRaw file_size).2 =
      if file_size % MIN_CHUNK_SIZE = 0 then MIN_CHUNK_SIZE
      else file_size % MIN_CHUNK_SIZE := by
  unfold chunkCountRaw
  split <;> simp_all

/-- When the chunk count fits, the loop exits on its first iteration. -/
lemma chunkLoop_ok (file_size : Nat)
    (hle : (chunkCountRaw file_size).1 ≤ MAX_CHUNKS) :
    chunkLoop file_size MIN_CHUNK_SIZE (by decide) =
      .ok (chunkCountRaw file_size) := by
  unfold chunkLoop
  have hnb : ¬ (chunkCountRaw file_size).1 * MIN_CHUNK_SIZE
      > MAX_S3_OBJECT_SIZE := by
    have : (chunkCountRaw file_size).1 * MIN_CHUNK_SIZE
        ≤ MAX_CHUNKS * MIN_CHUNK_SIZE :=
      Nat.mul_le_mul_right _ hle
    have hconst : MAX_CHUNKS * MIN_CHUNK_SIZE ≤ MAX_S3_OBJECT_SIZE := by
      decide
    omega
  rw [dif_neg hnb, dif_neg (by omega)]

/-- When the chunk count exceeds `MAX_CHUNKS`, every iteration either
errors or doubles `chunk_size`; the loop always ends in the refusal. -/
lemma chunkLoop_error_aux (file_size : Nat)
    (hgt : MAX_CHUNKS < (chunkCountRaw file_size).1) (n : Nat) :
    ∀ (cs : Nat) (h : 0 < cs), MAX_S3_OBJECT_SIZE + 1 - cs ≤ n →
      chunkLoop file_size cs h =
        .error "File too large. Max S3 object size is 5TiB" := by
  induction n with
  | zero =>
    intro cs h hle
    have hcs : MAX_S3_OBJECT_SIZE < cs := by omega
    unfold chunkLoop
    have hbig : (chunkCountRaw file_size).1 * cs > MAX_S3_OBJECT_SIZE := by
      have h1 : cs ≤ (chunkCountRaw file_size).1 * cs :=
        Nat.le_mul_of_pos_left cs (by omega)
      omega
    rw [dif_pos hbig]
  | succ n ih =>
    intro cs h hle
    unfold chunkLoop
    by_cases hbig : (chunkCountRaw file_size).1 * cs > MAX_S3_OBJECT_SIZE
    · rw [dif_pos hbig]
    · rw [dif_neg hbig, dif_pos hgt]
      apply ih
      have h1 : cs ≤ (chunkCountRaw file_size).1 * cs :=
        Nat.le_mul_of_pos_left cs (by omega)
      omega

lemma chunkLoop_error (file_size : Nat)
    (hgt : MAX_CHUNKS < (chunkCountRaw file_size).1) :
    chunkLoop file_size MIN_CHUNK_SIZE (by decide) =
      .error "File too large. Max S3 object size is 5TiB" :=
  chunkLoop_error_aux file_size hgt
    (MAX_S3_OBJECT_SIZE + 1 - MIN_CHUNK_SIZE) MIN_CHUNK_SIZE (by decide)
    (le_refl _)

/-- Chunk count below the cap exactly when the file is at most
`MAX_CHUNKS * MIN_CHUNK_SIZE` bytes (the count is
`⌈file_size / MIN_CHUNK_SIZE⌉`). -/
lemma chunkCountRaw_le_iff (file_size : Nat) :
    (chunkCountRaw file_size).1 ≤ MAX_CHUNKS ↔
      file_size ≤ MAX_CHUNKS * MIN_CHUNK_SIZE := by
  rw [chunkCountRaw_fst]
  simp only [MIN_CHUNK_SIZE, MAX_CHUNKS]
  norm_num
  split <;> omega

end ChunkLoopLemmas

section PutMultipartLemmas

lemma put_multipart_ok (file_size cc sol : Nat)
    (hraw : chunkCountRaw file_size = (cc, sol)) (hle : cc ≤ MAX_CHUNKS) :
    put_multipart file_size =
      .ok ((List.range cc).map fun chunk_index =>
        { part_number := chunk_index + 1,
          offset := chunk_index * MIN_CHUNK_SIZE,
          length := if cc - 1 = chunk_index then sol
                    else MIN_CHUNK_SIZE }) := by
  unfold put_multipart
  rw [chunkLoop_ok file_size (by rw [hraw]; exact hle), hraw]

lemma put_multipart_refused (file_size : Nat)
    (hgt : MAX_CHUNKS < (chunkCountRaw file_size).1) :
    put_multipart file_size =
      .error "File too large. Max S3 object size is 5TiB" := by
  unfold put_multipart
  rw [chunkLoop_error file_size hgt]

lemma chunk_lengths_sum (cc sol : Nat) (hcc : 0 < cc) :
    ((List.range cc).map fun i =>
        if cc - 1 = i then sol else MIN_CHUNK_SIZE).sum
      = (cc - 1) * MIN_CHUNK_SIZE + sol := by
  obtain ⟨m, rfl⟩ : ∃ m, cc = m + 1 := ⟨cc - 1, by omega⟩
  rw [List.range_succ, List.map_append, List.sum_append]
  have hmap : (List.range m).map
        (fun i => if m + 1 - 1 = i then sol else MIN_CHUNK_SIZE)
      = (List.range m).map fun _ => MIN_CHUNK_SIZE := by
    apply List.map_congr_left
    intro i hi
    have him : i < m := List.mem_range.mp hi
    rw [if_neg (by omega)]
  rw [hmap]
  simp [List.map_const', List.sum_replicate, Nat.mul_comm]

lemma chunkCountRaw_covers (file_size cc sol : Nat) (hpos : 0 < file_size)
    (hraw : chunkCountRaw file_size = (cc, sol)) :
    (cc - 1) * MIN_CHUNK_SIZE + sol = file_size ∧ 0 < cc := by
  unfold chunkCountRaw at hraw
  simp only [MIN_CHUNK_SIZE] at *
  norm_num at *
  split at hraw <;>
    simp only [Prod.mk.injEq] at hraw <;>
    obtain ⟨h1, h2⟩ := hraw <;>
    omega

end PutMultipartLemmas

/-- Counterexample to **C5** as stated.  A 100 MiB + 1 byte file is
uploaded via multipart with a final chunk of one byte, contradicting
"every chunk has size at least 5 MiB"; and a file of `10000 · 5 MiB + 1`
bytes — far below 5 TiB — is refused, contradicting "an upload is refused
exactly when the file exceeds 5 TiB". -/
theorem c5_counterexample :
    (∃ parts, s3_put 104857601 = .ok (.multipart parts) ∧
      ∃ p ∈ parts, p.length < MIN_CHUNK_SIZE) ∧
    52428800001 ≤ MAX_S3_OBJECT_SIZE ∧
    s3_put 52428800001 =
      .error "File too large. Max S3 object size is 5TiB" := by
  have hraw : chunkCountRaw 104857601 = (21, 1) := by decide
  have hok := put_multipart_ok 104857601 21 1 hraw (by decide)
  refine ⟨⟨(List.range 21).map fun chunk_index =>
      { part_number := chunk_index + 1,
        offset := chunk_index * MIN_CHUNK_SIZE,
        length := if 21 - 1 = chunk_index then 1 else MIN_CHUNK_SIZE },
    ?_, ?_⟩, by decide, ?_⟩
  · show s3_put 104857601 = _
    unfold s3_put
    rw [if_pos (by decide), hok]
    rfl
  · refine ⟨⟨21, 20 * MIN_CHUNK_SIZE, 1⟩, ?_, by decide⟩
    refine List.mem_map.mpr ⟨20, by simp, ?_⟩
    simp
  · have hgt : MAX_CHUNKS < (chunkCountRaw 52428800001).1 := by decide
    have herr := put_multipart_refused 52428800001 hgt
    unfold s3_put
    rw [if_pos (by decide), herr]
    rfl

/-- **C5 (amended)** — Multipart upload limits.  `put` uploads the whole
file in one call when the file size is at most 100 MiB and switches to
multipart exactly when the size exceeds 100 MiB.  Every chunk except the
last has size exactly 5 MiB; the last chunk has size
`file_size mod 5 MiB` (5 MiB when the size divides evenly), so it may be
smaller than 5 MiB.  At most 10 000 chunks are used, and an upload is
refused exactly when the file exceeds `10000 · 5 MiB` bytes (≈ 48.8 GiB)
— in particular every file over 5 TiB is refused, but so are far smaller
ones.  Chunks are read by offset/length from the source path
(`offset = (part_number - 1) · 5 MiB`), completed in part-number order
starting at 1 and covering the whole file, finalised by a single
complete-multipart call. -/
theorem c5_multipart_limits (file_size : Nat) :
    (file_size ≤ MULTIPART_UPLOAD_THRESHOLD →
      s3_put file_size = .ok PutPlan.single) ∧
    (MULTIPART_UPLOAD_THRESHOLD < file_size →
      file_size ≤ MAX_CHUNKS * MIN_CHUNK_SIZE →
      ∃ parts, s3_put file_size = .ok (.multipart parts) ∧
        parts.length ≤ MAX_CHUNKS ∧
        parts.map (fun p => p.part_number) = List.range' 1 parts.length ∧
        (∀ p ∈ parts, p.offset = (p.part_number - 1) * MIN_CHUNK_SIZE) ∧
        (∀ p ∈ parts, p.part_number ≠ parts.length →
          p.length = MIN_CHUNK_SIZE) ∧
        (∀ p ∈ parts, p.part_number = parts.length →
          p.length = if file_size % MIN_CHUNK_SIZE = 0 then MIN_CHUNK_SIZE
                     else file_size % MIN_CHUNK_SIZE) ∧
        (parts.map (fun p => p.length)).sum = file_size) ∧
    (MAX_CHUNKS * MIN_CHUNK_SIZE < file_size →
      s3_put file_size =
        .error "File too large. Max S3 object size is 5TiB") := by
  refine ⟨?_, ?_, ?_⟩
  · intro hle
    unfold s3_put
    rw [if_neg (by omega)]
  · intro hthr hcap
    rcases hraw : chunkCountRaw file_size with ⟨cc, sol⟩
    have hle : cc ≤ MAX_CHUNKS := by
      have h := (chunkCountRaw_le_iff file_size).mpr hcap
      rw [hraw] at h
      exact h
    have hok := put_multipart_ok file_size cc sol hraw hle
    have hpos : 0 < file_size := by
      have : (0 : Nat) < MULTIPART_UPLOAD_THRESHOLD := by decide
      omega
    obtain ⟨hcover, hccpos⟩ := chunkCountRaw_covers file_size cc sol hpos hraw
    have hsol : sol = if file_size % MIN_CHUNK_SIZE = 0 then MIN_CHUNK_SIZE
        else file_size % MIN_CHUNK_SIZE := by
      have h := chunkCountRaw_snd file_size
      rw [hraw] at h
      exact h
    refine ⟨(List.range cc).map fun chunk_index =>
        { part_number := chunk_index + 1,
          offset := chunk_index * MIN_CHUNK_SIZE,
          length := if cc - 1 = chunk_index then sol else MIN_CHUNK_SIZE },
      ?_, ?_, ?_, ?_, ?_, ?_, ?_⟩
    · unfold s3_put
      rw [if_pos (by omega), hok]
      rfl
    · simpa using hle
    · simp only [List.map_map, List.length_map, List.length_range,
        Function.comp]
      rw [List.range'_eq_map_range]
      apply List.map_congr_left
      intro i _
      simp [Nat.add_comm]
    · intro p hp
      obtain ⟨i, hi, rfl⟩ := List.mem_map.mp hp
      simp
    · intro p hp hne
      obtain ⟨i, hi, rfl⟩ := List.mem_map.mp hp
      have hilt := List.mem_range.mp hi
      simp only [List.length_map, List.length_range] at hne
      show (if cc - 1 = i then sol else MIN_CHUNK_SIZE) = MIN_CHUNK_SIZE
      rw [if_neg (by omega)]
    · intro p hp heq
      obtain ⟨i, hi, rfl⟩ := List.mem_map.mp hp
      have hilt := List.mem_range.mp hi
      simp only [List.length_map, List.length_range] at heq
      show (if cc - 1 = i then sol else MIN_CHUNK_SIZE) = _
      rw [if_pos (by omega), hsol]
    · simp only [List.map_map, Function.comp]
      show ((List.range cc).map fun i =>
        if cc - 1 = i then sol else MIN_CHUNK_SIZE).sum = file_size
      rw [chunk_lengths_sum cc sol hccpos]
      exact hcover
  · intro hcap
    have hthr : MULTIPART_UPLOAD_THRESHOLD < file_size := by
      have : MULTIPART_UPLOAD_THRESHOLD < MAX_CHUNKS * MIN_CHUNK_SIZE := by
        decide
      omega
    have hgt : MAX_CHUNKS < (chunkCountRaw file_size).1 := by
      by_contra hle
      push_neg at hle
      exact absurd ((chunkCountRaw_le_iff file_size).mp hle) (by omega)
    unfold s3_put
    rw [if_pos (by omega), put_multipart_refused file_size hgt]
    rfl

/-- Witness for `c5_multipart_limits` at concrete file sizes: a small
file goes out in a single call, a 100 MiB + 1 byte file multiparts, and a
`10000 · 5 MiB + 1` byte file is refused. -/
theorem c5_multipart_limits_witness :
    s3_put 100 = .ok PutPlan.single ∧
    (∃ parts, s3_put 104857601 = .ok (.multipart parts)) ∧
    s3_put 52428800001 =
      .error "File too large. Max S3 object size is 5TiB" := by
  refine ⟨(c5_multipart_limits 100).1 (by decide), ?_,
    (c5_multipart_limits 52428800001).2.2 (by decide)⟩
  obtain ⟨parts, hp, _⟩ :=
    (c5_multipart_limits 104857601).2.1 (by decide) (by decide)
  exact ⟨parts, hp⟩

/-! ## The reconciliation engine's upload pass (`src/backup.rs`,
`complete_put`) -/

/-- The `HashJob` struct of `src/backup.rs`: a tracker together with the
(already locally updated) catalogue row it belongs to. -/
structure HashJob where
  hash_tracker : HashTracker
  file : GlacierFile
deriving DecidableEq

/-- An `s3::put(bucket, file_path, key)` request: the local path read and
the object key written. -/
structure S3PutReq where
  file_path : String
  key : String
deriving DecidableEq

/-- Where the sort loop of `complete_put` files one input, and what it
queues there.  The `noUpload*` variants queue **no** S3 action, only a
metadata put of `queued_put`; the other variants queue the recorded S3
action and a `HashJob` processed by the corresponding later section. -/
inductive SortOutcome where
  | noUploadLocalUpd (queued_put : HashTracker) (old_hash : String)
      (file : GlacierFile)
  | noUploadLocalNew (queued_put : HashTracker) (file : GlacierFile)
  | reupload (s3put : S3PutReq) (job : HashJob)
  | undeleteQueued (s3undelete_key : String) (job : HashJob)
  | upload (s3put : S3PutReq) (job : HashJob)
deriving DecidableEq

/-- One iteration of the "SORT FILES INTO JOB ORGANIZERS" loop of
`complete_put` (`src/backup.rs` lines 227-339), for one file, its freshly
computed `new_hash`, and the result of the `HashTracker::get` lookup
(`none` models the `Err` branch, i.e. no tracker found).  `now` is the
current time in epoch seconds and `min_storage_duration` the retention in
days (`Duration::days`, hence `* 86400`; the `checked_add_signed`
overflow fallback to the epoch cannot fire over `Int`).

Note the source detail faithfully kept here: in both `has_files`
branches the path is added to the local clone `h_t`, but the future
pushed onto the put queue is `hash_tracker.put(..)` — the *fetched*
tracker, without the new path (`src/backup.rs` lines 245-247 and
262-264).  In the remaining branches the updated `h_t` is the tracker
carried by the queued `HashJob`.

In the `Err` branch the source's revision of `HashTracker::new` also
takes the file path; since `add_file_name` is applied immediately after
with that same path and the path set deduplicates, it is modelled as the
two-argument `new` followed by `add_file_name`. -/
def sortFile (min_storage_duration now : Int) (file : GlacierFile)
    (new_hash : String) (result : Option HashTracker) : SortOutcome :=
  match result with
  | some hash_tracker =>
    if hash_tracker.has_files then
      match file.file_hash with
      | some file_hash =>
        let h_t := hash_tracker.add_file_name file.file_path
        let file' := { file with file_hash := some h_t.hash,
                                 uploaded := some file.modified }
        SortOutcome.noUploadLocalUpd hash_tracker file_hash file'
      | none =>
        let h_t := hash_tracker.add_file_name file.file_path
        let file' := { file with file_hash := some h_t.hash,
                                 uploaded := some file.modified }
        SortOutcome.noUploadLocalNew hash_tracker file'
    else
      if hash_tracker.expiration < now then
        let expiration := now + min_storage_duration * 86400
        let h_t := ({ hash_tracker with
          expiration := expiration } : HashTracker).add_file_name
            file.file_path
        let file' := { file with file_hash := some hash_tracker.hash,
                                 uploaded := some file.modified }
        SortOutcome.reupload ⟨file.file_path, hash_tracker.hash⟩ ⟨h_t, file'⟩
      else
        let h_t := hash_tracker.add_file_name file.file_path
        let file' := { file with file_hash := some hash_tracker.hash,
                                 uploaded := some file.modified }
        SortOutcome.undeleteQueued hash_tracker.hash ⟨h_t, file'⟩
  | none =>
    let expiration := now + min_storage_duration * 86400
    let hash_tracker := (HashTracker.new new_hash expiration).add_file_name
      file.file_path
    let file' := { file with file_hash := some hash_tracker.hash,
                             uploaded := some file.modified }
    SortOutcome.upload ⟨file.file_path, hash_tracker.hash⟩
      ⟨hash_tracker, file'⟩

/-- **C1** — Deduplication of identical content, at a failing input.  A
new local file `B` whose content hash `h` already has a tracker with the
non-empty path set `{A}` is sorted into the no-upload branch: no S3
action is queued (first conjunct — the outcome is `noUploadLocalNew`,
which carries no put/reupload/undelete request), but the metadata put
queued for the tracker is the *fetched* record with path set `{A}`; the
new path `B` is not in it (second conjunct), although the engine computed
(and discarded) the updated tracker and stamped the catalogue row with
hash `h`.  The spec requires the written tracker's path set to be
`{A, B}`; the source comment "Add filename to new dynamodb hash entry"
(src/backup.rs line 262) states the same intent, but line 264 puts
`hash_tracker` instead of the updated `h_t`. -/
theorem c1_dedup_put_drops_new_path :
    sortFile 180 0
        { file_path := "B", file_hash := none, modified := 5,
          uploaded := none, pending_delete := false }
        "h" (some ⟨"h", 100, {"A"}⟩) =
      SortOutcome.noUploadLocalNew ⟨"h", 100, {"A"}⟩
        { file_path := "B", file_hash := some "h", modified := 5,
          uploaded := some 5, pending_delete := false } ∧
    "B" ∉ (({"A"} : Finset String)) := by
  constructor
  · rfl
  · decide

/-- Output of the UPLOAD (and REUPLOAD) result loop of `complete_put`:
metadata puts queued, catalogue rows updated, failures counted. -/
structure UploadOut where
  tracker_puts : List HashTracker
  file_updates : List GlacierFile
  failures : Nat
deriving DecidableEq

/-- The UPLOAD section of `complete_put` (`src/backup.rs` lines 507-530;
the REUPLOAD section lines 532-555 is identical): walk the jobs paired
positionally with the collected S3 put results; on success queue
`hash_tracker.put` and update the file's catalogue row, on failure count
one failure.  (Results always match jobs one-to-one in the source; the
mismatched case returns the empty output.) -/
def uploadSection : List HashJob → List Bool → UploadOut
  | [], _ => ⟨[], [], 0⟩
  | _ :: _, [] => ⟨[], [], 0⟩
  | job :: jobs, r :: rs =>
    let rest := uploadSection jobs rs
    if r then
      { rest with tracker_puts := job.hash_tracker :: rest.tracker_puts,
                  file_updates := job.file :: rest.file_updates }
    else
      { rest with failures := rest.failures + 1 }

/-- Output of the UNDELETE result loop of `complete_put`. -/
structure UndeleteOut where
  tracker_puts : List HashTracker
  file_updates : List GlacierFile
  fallback_jobs : List HashJob
  fallback_s3_puts : List S3PutReq
  failures : Nat
deriving DecidableEq

/-- The UNDELETE section of `complete_put` (`src/backup.rs` lines
479-505): walk the undelete jobs paired positionally with the collected
S3 undelete results; on success queue the tracker put and update the
catalogue row; on *failure* count no failure — instead push the job onto
`s3_upload_post` and an `s3::put` of the job's file path under the
tracker's hash onto `s3_upload`, so the UPLOAD section later processes it
exactly like a fresh upload. -/
def undeleteSection : List HashJob → List Bool → UndeleteOut
  | [], _ => ⟨[], [], [], [], 0⟩
  | _ :: _, [] => ⟨[], [], [], [], 0⟩
  | job :: jobs, r :: rs =>
    let rest := undeleteSection jobs rs
    if r then
      { rest with tracker_puts := job.hash_tracker :: rest.tracker_puts,
                  file_updates := job.file :: rest.file_updates }
    else
      { rest with
          fallback_jobs := job :: rest.fallback_jobs,
          fallback_s3_puts :=
            ⟨job.file.file_path, job.hash_tracker.hash⟩ ::
              rest.fallback_s3_puts }

/-- The UNDELETE section followed by the UPLOAD section; the fallback
jobs and their S3 put results are appended after the original upload jobs
and results, as pushing onto `s3_upload` / `s3_upload_post` does in the
source. -/
def undeleteThenUpload (undeleteJobs : List HashJob)
    (undeleteResults : List Bool) (uploadJobs : List HashJob)
    (uploadResults fallbackResults : List Bool) :
    UndeleteOut × UploadOut :=
  let u := undeleteSection undeleteJobs undeleteResults
  (u, uploadSection (uploadJobs ++ u.fallback_jobs)
        (uploadResults ++ fallbackResults))

section UndeleteLemmas

lemma uploadSection_cons (job : HashJob) (jobs : List HashJob) (r : Bool)
    (rs : List Bool) :
    uploadSection (job :: jobs) (r :: rs) =
      if r then
        { uploadSection jobs rs with
            tracker_puts := job.hash_tracker ::
              (uploadSection jobs rs).tracker_puts,
            file_updates := job.file :: (uploadSection jobs rs).file_updates }
      else
        { uploadSection jobs rs with
            failures := (uploadSection jobs rs).failures + 1 } := rfl

lemma undeleteSection_failures (js : List HashJob) (rs : List Bool) :
    (undeleteSection js rs).failures = 0 := by
  induction js generalizing rs with
  | nil => rfl
  | cons job jobs ih =>
    cases rs with
    | nil => rfl
    | cons r rs =>
      unfold undeleteSection
      by_cases hr : r = true <;> simp [hr, ih]

lemma undeleteSection_fallback (js : List HashJob) (rs : List Bool) :
    (undeleteSection js rs).fallback_jobs =
      ((js.zip rs).filter fun p => p.2 = false).map Prod.fst ∧
    (undeleteSection js rs).fallback_s3_puts =
      ((js.zip rs).filter fun p => p.2 = false).map fun p =>
        ⟨p.1.file.file_path, p.1.hash_tracker.hash⟩ := by
  induction js generalizing rs with
  | nil => exact ⟨rfl, rfl⟩
  | cons job jobs ih =>
    cases rs with
    | nil => exact ⟨rfl, rfl⟩
    | cons r rs =>
      unfold undeleteSection
      by_cases hr : r = true <;>
        simp [hr, (ih rs).1, (ih rs).2]

lemma uploadSection_append (ujs fb : List HashJob) (urs fr : List Bool)
    (hlen : ujs.length = urs.length) :
    uploadSection (ujs ++ fb) (urs ++ fr) =
      ⟨(uploadSection ujs urs).tracker_puts ++
          (uploadSection fb fr).tracker_puts,
        (uploadSection ujs urs).file_updates ++
          (uploadSection fb fr).file_updates,
        (uploadSection ujs urs).failures + (uploadSection fb fr).failures⟩ := by
  induction ujs generalizing urs with
  | nil =>
    cases urs with
    | nil => simp [uploadSection]
    | cons r rs => simp at hlen
  | cons job jobs ih =>
    cases urs with
    | nil => simp at hlen
    | cons r rs =>
      simp only [List.length_cons, Nat.add_right_cancel_iff] at hlen
      simp only [List.cons_append]
      rw [uploadSection_cons, uploadSection_cons, ih rs hlen]
      cases r with
      | true => simp
      | false =>
        simp only [Bool.false_eq_true, if_false, UploadOut.mk.injEq]
        exact ⟨trivial, trivial, by omega⟩

end UndeleteLemmas

/-- **C6** — Undelete fallback.  For every hash classified as
restore-from-delete whose S3 undelete errors, the engine counts no
failure (the UNDELETE loop's failure count is zero always); the job is
queued for fallback together with an S3 put of its representative file
path under the tracker's hash; and the later UPLOAD section processes the
fallback block after, and independently of, the original upload jobs, so
on a successful put the tracker is written and the catalogue row updated
exactly as for a fresh upload (`uploadSection [j] [true]` yields the
tracker put and the file update and no failure). -/
theorem c6_undelete_fallback (js ujs : List HashJob) (rs urs frs : List Bool)
    (hlen : ujs.length = urs.length) :
    (undeleteSection js rs).failures = 0 ∧
    (undeleteSection js rs).fallback_jobs =
      ((js.zip rs).filter fun p => p.2 = false).map Prod.fst ∧
    (undeleteSection js rs).fallback_s3_puts =
      ((js.zip rs).filter fun p => p.2 = false).map (fun p =>
        ⟨p.1.file.file_path, p.1.hash_tracker.hash⟩) ∧
    (undeleteThenUpload js rs ujs urs frs).2 =
      ⟨(uploadSection ujs urs).tracker_puts ++
          (uploadSection (undeleteSection js rs).fallback_jobs
            frs).tracker_puts,
        (uploadSection ujs urs).file_updates ++
          (uploadSection (undeleteSection js rs).fallback_jobs
            frs).file_updates,
        (uploadSection ujs urs).failures +
          (uploadSection (undeleteSection js rs).fallback_jobs
            frs).failures⟩ ∧
    (∀ j : HashJob, uploadSection [j] [true] = ⟨[j.hash_tracker], [j.file], 0⟩) := by
  refine ⟨undeleteSection_failures js rs, (undeleteSection_fallback js rs).1,
    (undeleteSection_fallback js rs).2, ?_, ?_⟩
  · exact uploadSection_append ujs _ urs frs hlen
  · intro j
    simp [uploadSection]

/-- Witness for `c6_undelete_fallback`: one undelete job whose S3
undelete fails, no pre-existing upload jobs, and a successful fallback
put. -/
theorem c6_undelete_fallback_witness :
    (undeleteSection [⟨⟨"h", 9, {"A"}⟩,
        { file_path := "A", file_hash := some "h", modified := 1,
          uploaded := some 1, pending_delete := false }⟩] [false]).failures
      = 0 ∧
    (undeleteThenUpload [⟨⟨"h", 9, {"A"}⟩,
        { file_path := "A", file_hash := some "h", modified := 1,
          uploaded := some 1, pending_delete := false }⟩] [false]
        [] [] [true]).2 =
      ⟨[⟨"h", 9, {"A"}⟩],
        [{ file_path := "A", file_hash := some "h", modified := 1,
           uploaded := some 1, pending_delete := false }], 0⟩ := by
  have h := c6_undelete_fallback
    [⟨⟨"h", 9, {"A"}⟩,
      { file_path := "A", file_hash := some "h", modified := 1,
        uploaded := some 1, pending_delete := false }⟩]
    [] [false] [] [true] rfl
  refine ⟨h.1, ?_⟩
  rw [h.2.2.2.1]
  decide

/-! ## `get_object` (`src/s3.rs` lines 345-383) -/

/-- Effects of the restore-side download, in program order: directory
creation, file creation, the S3 `get_object` request, writing the
response body, and local copies from the first destination. -/
inductive Fx where
  | createDirAll (dir : String)
  | createFile (path : String)
  | s3GetObject (key : String)
  | writeBytes (path : String)
  | copy (src dst : String)
deriving DecidableEq

/-- `str::rsplit_once('/')` over the character list: split at the LAST
slash; `none` when there is none. -/
def rsplitOnceSlashAux : List Char → Option (List Char × List Char)
  | [] => none
  | c :: cs =>
    match rsplitOnceSlashAux cs with
    | some (a, b) => some (c :: a, b)
    | none => if c = '/' then some ([], cs) else none

/-- `str::rsplit_once('/')` on strings. -/
def rsplit_once_slash (s : String) : Option (String × String) :=
  (rsplitOnceSlashAux s.toList).map fun p => (String.mk p.1, String.mk p.2)

/-- The `for i in 1..files.len()` loop of `get_object`: for every further
destination, unwrap the split (panic — `none` — without a slash), create
the parent directory and copy the first file there. -/
def copyLoop (first_file pfx : String) : List String → Option (List Fx)
  | [] => some []
  | f :: fs =>
    match rsplit_once_slash (pfx ++ f) with
    | none => none
    | some (dir, _) =>
      (copyLoop first_file pfx fs).map fun effs =>
        Fx.createDirAll dir :: Fx.copy first_file (pfx ++ f) :: effs

/-- `get_object` (`src/s3.rs` lines 345-383).  The `[]` case is the
source's `file_paths.len() == 0` early return.  Otherwise the first
destination's split is unwrapped (`none` models the panic), its parent
directory is created and the file opened; in dry-run mode the function
returns here.  Otherwise the object is fetched, its body written to the
first file, and every further destination gets a parent `create_dir_all`
and a copy of the first file.  The result carries the ordered effect
trace and the returned file list. -/
def get_object (dry_run : Bool) (key pfx : String)
    (file_paths : List String) : Option (List Fx × List String) :=
  match file_paths with
  | [] => some ([], [])
  | f0 :: rest =>
    let files := f0 :: rest
    let first_file := pfx ++ f0
    match rsplit_once_slash first_file with
    | none => none
    | some (first_dir, _) =>
      let effs0 := [Fx.createDirAll first_dir, Fx.createFile first_file]
      if dry_run then some (effs0, files)
      else
        match copyLoop first_file pfx rest with
        | none => none
        | some effs1 =>
          some (effs0 ++ [Fx.s3GetObject key, Fx.writeBytes first_file]
            ++ effs1, files)

/-- `writesCoveredBy made effs` holds when every filesystem write in
`effs` (file creation, body write, copy destination) targets a path
whose parent — the `rsplit_once('/')` prefix — is in `made`, the set of
directories passed to `create_dir_all` earlier in the trace. -/
def writesCoveredBy (made : List String) : List Fx → Bool
  | [] => true
  | Fx.createDirAll d :: effs => writesCoveredBy (d :: made) effs
  | Fx.s3GetObject _ :: effs => writesCoveredBy made effs
  | Fx.createFile p :: effs =>
    (match rsplit_once_slash p with
     | some (dir, _) => made.contains dir
     | none => false) && writesCoveredBy made effs
  | Fx.writeBytes p :: effs =>
    (match rsplit_once_slash p with
     | some (dir, _) => made.contains dir
     | none => false) && writesCoveredBy made effs
  | Fx.copy _ p :: effs =>
    (match rsplit_once_slash p with
     | some (dir, _) => made.contains dir
     | none => false) && writesCoveredBy made effs

section GetObjectLemmas

lemma map_isSome {α β : Type} (f : α → β) (o : Option α) :
    (o.map f).isSome = o.isSome := by
  cases o <;> rfl

lemma writesCoveredBy_dir (made : List String) (d : String)
    (effs : List Fx) :
    writesCoveredBy made (Fx.createDirAll d :: effs) =
      writesCoveredBy (d :: made) effs := rfl

lemma writesCoveredBy_get (made : List String) (k : String)
    (effs : List Fx) :
    writesCoveredBy made (Fx.s3GetObject k :: effs) =
      writesCoveredBy made effs := rfl

lemma writesCoveredBy_createFile (made : List String) (p : String)
    (effs : List Fx) :
    writesCoveredBy made (Fx.createFile p :: effs) =
      ((match rsplit_once_slash p with
        | some (dir, _) => made.contains dir
        | none => false) && writesCoveredBy made effs) := rfl

lemma writesCoveredBy_writeBytes (made : List String) (p : String)
    (effs : List Fx) :
    writesCoveredBy made (Fx.writeBytes p :: effs) =
      ((match rsplit_once_slash p with
        | some (dir, _) => made.contains dir
        | none => false) && writesCoveredBy made effs) := rfl

lemma writesCoveredBy_copy (made : List String) (s p : String)
    (effs : List Fx) :
    writesCoveredBy made (Fx.copy s p :: effs) =
      ((match rsplit_once_slash p with
        | some (dir, _) => made.contains dir
        | none => false) && writesCoveredBy made effs) := rfl

lemma copyLoop_cons (first_file pfx f : String) (fs : List String) :
    copyLoop first_file pfx (f :: fs) =
      match rsplit_once_slash (pfx ++ f) with
      | none => none
      | some (dir, _) =>
        (copyLoop first_file pfx fs).map fun effs =>
          Fx.createDirAll dir :: Fx.copy first_file (pfx ++ f) :: effs := rfl

lemma get_object_cons (dry_run : Bool) (key pfx f0 : String)
    (rest : List String) :
    get_object dry_run key pfx (f0 :: rest) =
      match rsplit_once_slash (pfx ++ f0) with
      | none => none
      | some (first_dir, _) =>
        if dry_run then
          some ([Fx.createDirAll first_dir, Fx.createFile (pfx ++ f0)],
            f0 :: rest)
        else
          match copyLoop (pfx ++ f0) pfx rest with
          | none => none
          | some effs1 =>
            some ([Fx.createDirAll first_dir, Fx.createFile (pfx ++ f0)]
              ++ [Fx.s3GetObject key, Fx.writeBytes (pfx ++ f0)] ++ effs1,
              f0 :: rest) := rfl

lemma rsplitOnceSlashAux_isSome (l : List Char) :
    (rsplitOnceSlashAux l).isSome = true ↔ '/' ∈ l := by
  induction l with
  | nil => simp [rsplitOnceSlashAux]
  | cons c cs ih =>
    show (match rsplitOnceSlashAux cs with
      | some (a, b) => some (c :: a, b)
      | none => if c = '/' then some ([], cs) else none).isSome = true ↔ _
    rcases hrec : rsplitOnceSlashAux cs with _ | ⟨a, b⟩
    · rw [hrec] at ih
      simp only [Option.isSome_none, Bool.false_eq_true, false_iff] at ih
      by_cases hc : c = '/'
      · subst hc
        simp
      · rw [if_neg hc]
        simp only [Option.isSome_none, Bool.false_eq_true, false_iff]
        intro hmem
        rcases List.mem_cons.mp hmem with h | h
        · exact hc h.symm
        · exact ih h
    · rw [hrec] at ih
      simp only [Option.isSome_some, true_iff] at ih
      simp [List.mem_cons, ih]

lemma rsplit_once_slash_isSome (s : String) :
    (rsplit_once_slash s).isSome = true ↔ '/' ∈ s.toList := by
  unfold rsplit_once_slash
  rw [map_isSome]
  exact rsplitOnceSlashAux_isSome s.toList

lemma rsplit_none_not_mem {s : String} (h : rsplit_once_slash s = none) :
    '/' ∉ s.toList := by
  intro hmem
  have := (rsplit_once_slash_isSome s).mpr hmem
  rw [h] at this
  simp at this

lemma rsplit_some_mem {s a b : String}
    (h : rsplit_once_slash s = some (a, b)) : '/' ∈ s.toList := by
  rw [← rsplit_once_slash_isSome, h]
  rfl

lemma copyLoop_isSome (first_file pfx : String) (fs : List String) :
    (copyLoop first_file pfx fs).isSome = true ↔
      ∀ f ∈ fs, '/' ∈ (pfx ++ f).toList := by
  induction fs with
  | nil => simp [copyLoop]
  | cons f fs ih =>
    rw [copyLoop_cons]
    rcases hsplit : rsplit_once_slash (pfx ++ f) with _ | ⟨dir, rest⟩
    · simp only [Option.isSome_none, Bool.false_eq_true, false_iff]
      intro hall
      exact rsplit_none_not_mem hsplit (hall f (List.mem_cons_self f fs))
    · rw [map_isSome, ih]
      constructor
      · intro hall f' hf'
        rcases List.mem_cons.mp hf' with rfl | h
        · exact rsplit_some_mem hsplit
        · exact hall f' h
      · intro hall f' hf'
        exact hall f' (List.mem_cons_of_mem _ hf')

lemma copyLoop_covered (first_file pfx : String) (fs : List String)
    (effs : List Fx) (h : copyLoop first_file pfx fs = some effs) :
    ∀ made, writesCoveredBy made effs = true := by
  induction fs generalizing effs with
  | nil =>
    intro made
    simp only [copyLoop] at h
    cases h
    rfl
  | cons f fs ih =>
    intro made
    rw [copyLoop_cons] at h
    rcases hsplit : rsplit_once_slash (pfx ++ f) with _ | ⟨dir, rest⟩
    · rw [hsplit] at h
      cases h
    · rw [hsplit] at h
      rcases hrec : copyLoop first_file pfx fs with _ | effs'
      · rw [hrec] at h
        cases h
      · rw [hrec] at h
        simp only [Option.map_some'] at h
        cases h
        rw [writesCoveredBy_dir, writesCoveredBy_copy, hsplit]
        simp only [List.contains_cons, beq_self_eq_true, Bool.true_or,
          Bool.true_and]
        exact ih effs' hrec (dir :: made)

end GetObjectLemmas

/-- **C10** — Implicit precondition of `get_object`.  For every call with
a non-empty destination list: if every concatenated destination
(`pfx ++ path`) contains a slash, the function does not panic — it
returns an effect trace in which the parent directory of every written
destination has been created by an earlier `create_dir_all` — and in
non-dry-run mode the `rsplit_once('/')` unwraps panic exactly when some
concatenated destination has no slash. -/
theorem c10_get_object_precondition (dry_run : Bool) (key pfx : String)
    (file_paths : List String) (hne : file_paths ≠ []) :
    ((∀ p ∈ file_paths, '/' ∈ (pfx ++ p).toList) →
      ∃ effs, get_object dry_run key pfx file_paths =
          some (effs, file_paths) ∧
        writesCoveredBy [] effs = true) ∧
    (dry_run = false →
      (get_object dry_run key pfx file_paths = none ↔
        ∃ p ∈ file_paths, '/' ∉ (pfx ++ p).toList)) := by
  match file_paths, hne with
  | f0 :: rest, _ =>
    constructor
    · intro hall
      have h0 : '/' ∈ (pfx ++ f0).toList := hall f0 (List.mem_cons_self f0 rest)
      rcases hsplit : rsplit_once_slash (pfx ++ f0) with _ | ⟨first_dir, r0⟩
      · exact absurd h0 (rsplit_none_not_mem hsplit)
      · cases dry_run with
        | true =>
          refine ⟨[Fx.createDirAll first_dir, Fx.createFile (pfx ++ f0)],
            ?_, ?_⟩
          · rw [get_object_cons, hsplit]
            rfl
          · rw [writesCoveredBy_dir, writesCoveredBy_createFile, hsplit]
            simp only [List.contains_cons, beq_self_eq_true, Bool.true_or,
              Bool.true_and]
            rfl
        | false =>
          have hrest : ∀ f ∈ rest, '/' ∈ (pfx ++ f).toList := fun f hf =>
            hall f (List.mem_cons_of_mem _ hf)
          obtain ⟨effs1, hloop⟩ := Option.isSome_iff_exists.mp
            ((copyLoop_isSome (pfx ++ f0) pfx rest).mpr hrest)
          refine ⟨[Fx.createDirAll first_dir, Fx.createFile (pfx ++ f0)]
            ++ [Fx.s3GetObject key, Fx.writeBytes (pfx ++ f0)] ++ effs1,
            ?_, ?_⟩
          · rw [get_object_cons, hsplit]
            simp only [Bool.false_eq_true, if_false]
            rw [hloop]
          · simp only [List.cons_append, List.nil_append]
            rw [writesCoveredBy_dir, writesCoveredBy_createFile, hsplit]
            simp only [List.contains_cons, beq_self_eq_true, Bool.true_or,
              Bool.true_and]
            rw [writesCoveredBy_get, writesCoveredBy_writeBytes, hsplit]
            simp only [List.contains_cons, beq_self_eq_true, Bool.true_or,
              Bool.true_and]
            exact copyLoop_covered (pfx ++ f0) pfx rest effs1 hloop _
    · intro hdry
      subst hdry
      constructor
      · intro hnone
        rw [get_object_cons] at hnone
        rcases hsplit : rsplit_once_slash (pfx ++ f0) with _ | ⟨first_dir, r0⟩
        · exact ⟨f0, List.mem_cons_self f0 rest, rsplit_none_not_mem hsplit⟩
        · rw [hsplit] at hnone
          simp only [Bool.false_eq_true, if_false] at hnone
          rcases hloop : copyLoop (pfx ++ f0) pfx rest with _ | effs1
          · have hnall : ¬ ∀ f ∈ rest, '/' ∈ (pfx ++ f).toList := by
              rw [← copyLoop_isSome (pfx ++ f0) pfx, hloop]
              simp
            push_neg at hnall
            obtain ⟨f, hf, hslash⟩ := hnall
            exact ⟨f, List.mem_cons_of_mem _ hf, hslash⟩
          · rw [hloop] at hnone
            cases hnone
      · rintro ⟨p, hp, hslash⟩
        rw [get_object_cons]
        rcases hsplit : rsplit_once_slash (pfx ++ f0) with _ | ⟨first_dir, r0⟩
        · rfl
        · have h0 : '/' ∈ (pfx ++ f0).toList := rsplit_some_mem hsplit
          have hpr : p ∈ rest := by
            rcases List.mem_cons.mp hp with h | h
            · subst h; exact absurd h0 hslash
            · exact h
          have hns : ¬ (copyLoop (pfx ++ f0) pfx rest).isSome = true := by
            rw [copyLoop_isSome]
            push_neg
            exact ⟨p, hpr, hslash⟩
          rcases hloop : copyLoop (pfx ++ f0) pfx rest with _ | effs1
          · simp only [Bool.false_eq_true, if_false]
          · rw [hloop] at hns
            simp at hns

/-- Witness for `c10_get_object_precondition`: two destinations under a
prefix ending in a slash; the trace exists and every write is covered by
an earlier directory creation. -/
theorem c10_get_object_precondition_witness :
    (∃ effs, get_object false "h" "out/" ["a/x", "b/y"] =
        some (effs, ["a/x", "b/y"]) ∧
      writesCoveredBy [] effs = true) ∧
    (get_object false "h" "out/" ["a/x", "b/y"] = none ↔
      ∃ p ∈ ["a/x", "b/y"], '/' ∉ ("out/" ++ p).toList) := by
  have h := c10_get_object_precondition false "h" "out/" ["a/x", "b/y"]
    (by simp)
  exact ⟨h.1 (by decide), h.2 rfl⟩

/-! ## Backup stages and dry run (`src/backup.rs` lines 47-153) -/

/-- The three stores the run mutates: the object store (keys with their
last-modified times), the metadata store, and the local catalogue. -/
structure SystemState where
  object_store : List (String × Int)
  metadata_store : MetaStore
  catalogue : Catalogue
deriving DecidableEq

/-- `get_glacier_file` (`src/lib.rs` lines 126-130): find a
`glacier_state` row by primary key. -/
def get_glacier_file (c : Catalogue) (file_path : String) :
    Option GlacierFile :=
  c.glacier_state.find? fun g => g.file_path = file_path

/-- `GlacierFile::insert` (`src/models.rs` lines 115-123): upsert by
`file_path` (`on_conflict ... do_update`). -/
def GlacierFile.insertRow (f : GlacierFile) (c : Catalogue) : Catalogue :=
  { c with glacier_state :=
      f :: c.glacier_state.filter fun g => g.file_path ≠ f.file_path }

/-- `GlacierFile::update` via Diesel's `AsChangeset`: replace the row
with the same `file_path`. -/
def GlacierFile.updateRow (f : GlacierFile) (c : Catalogue) : Catalogue :=
  { c with glacier_state :=
      c.glacier_state.map fun g => if g.file_path = f.file_path then f else g }

/-- `fix_pending_uploads` (`src/backup.rs` lines 47-58).  The
`get_pending_upload_files` query (a pure read of the catalogue, not part
of the provided sources) and the call to `complete_put` are passed as
arguments; the dry-run check precedes the completion call, so the
dry-run behaviour holds for every such pair. -/
def fix_pending_uploads
    (get_pending_upload_files : Catalogue → List GlacierFile)
    (completePut : List GlacierFile → SystemState → Nat × SystemState)
    (dry_run : Bool) (st : SystemState) : (Nat × Nat) × SystemState :=
  let pending := get_pending_upload_files st.catalogue
  let length := pending.length
  if dry_run then ((length, 0), st)
  else
    let r := completePut pending st
    ((length - r.1, r.1), r.2)

/-- `fix_pending_updates` (`src/backup.rs` lines 60-71); same shape. -/
def fix_pending_updates
    (get_pending_update_files : Catalogue → List GlacierFile)
    (completePut : List GlacierFile → SystemState → Nat × SystemState)
    (dry_run : Bool) (st : SystemState) : (Nat × Nat) × SystemState :=
  let pending := get_pending_update_files st.catalogue
  let length := pending.length
  if dry_run then ((length, 0), st)
  else
    let r := completePut pending st
    ((length - r.1, r.1), r.2)

/-- `fix_pending_deletes` (`src/backup.rs` lines 73-84); same shape with
`complete_delete`. -/
def fix_pending_deletes
    (get_pending_delete_files : Catalogue → List GlacierFile)
    (completeDelete : List GlacierFile → SystemState → Nat × SystemState)
    (dry_run : Bool) (st : SystemState) : (Nat × Nat) × SystemState :=
  let pending := get_pending_delete_files st.catalogue
  let length := pending.length
  if dry_run then ((length, 0), st)
  else
    let r := completeDelete pending st
    ((length - r.1, r.1), r.2)

/-- `upload_new_files` (`src/backup.rs` lines 86-109): read the new
files; in dry-run report and stop; otherwise insert a hashless
`GlacierFile` row per new file and run `complete_put` on them. -/
def upload_new_files
    (completePut : List GlacierFile → SystemState → Nat × SystemState)
    (dry_run : Bool) (st : SystemState) : (Nat × Nat) × SystemState :=
  let new_files := get_new_files st.catalogue
  let length := new_files.length
  if dry_run then ((length, 0), st)
  else
    let glacier_files := new_files.map fun file =>
      GlacierFile.mk file.file_path none file.modified none false
    let st1 := { st with
      catalogue := glacier_files.foldl (fun c f => f.insertRow c)
        st.catalogue }
    let r := completePut glacier_files st1
    ((length - r.1, r.1), r.2)

/-- `update_changed_files` (`src/backup.rs` lines 111-134): read the
changed files; in dry-run report and stop; otherwise look up each
glacier row, refresh its mtime, and run `complete_put`. -/
def update_changed_files
    (completePut : List GlacierFile → SystemState → Nat × SystemState)
    (dry_run : Bool) (st : SystemState) : (Nat × Nat) × SystemState :=
  let updated_files := get_changed_files st.catalogue
  let length := updated_files.length
  if dry_run then ((length, 0), st)
  else
    let glacier_files := updated_files.filterMap fun local_file =>
      (get_glacier_file st.catalogue local_file.file_path).map fun gf =>
        { gf with modified := local_file.modified }
    let r := completePut glacier_files st
    ((length - r.1, r.1), r.2)

/-- `delete_missing_files` (`src/backup.rs` lines 136-153): read the
missing files; in dry-run report and stop; otherwise set each row's
`pending_delete`, write it back, and run `complete_delete`. -/
def delete_missing_files
    (completeDelete : List GlacierFile → SystemState → Nat × SystemState)
    (dry_run : Bool) (st : SystemState) : (Nat × Nat) × SystemState :=
  let deleted_files := get_missing_files st.catalogue
  let length := deleted_files.length
  if dry_run then ((length, 0), st)
  else
    let marked := deleted_files.map fun f => { f with pending_delete := true }
    let st1 := { st with
      catalogue := marked.foldl (fun c f => GlacierFile.updateRow f c)
        st.catalogue }
    let r := completeDelete marked st1
    ((length - r.1, r.1), r.2)

/-- **C3** — Dry-run purity.  With the dry-run flag set, each of the six
backup stages returns after reporting the pending count and leaves the
whole state — object store, metadata store and catalogue — exactly as it
was, for every completion function and every pending-files query; and
the restore-side `get_object` returns after its planning step: its effect
trace contains no S3 request, no body write and no copy (the three
stores are not inputs of `get_object` at all, so they are untouched by
construction). -/
theorem c3_dry_run_purity
    (getPU getPUp getPD : Catalogue → List GlacierFile)
    (completePut completeDelete : List GlacierFile → SystemState → Nat × SystemState)
    (st : SystemState) (key pfx : String) (file_paths : List String)
    (dry_run : Bool) (hdry : dry_run = true) :
    (fix_pending_uploads getPU completePut dry_run st).2 = st ∧
    (fix_pending_updates getPUp completePut dry_run st).2 = st ∧
    (fix_pending_deletes getPD completeDelete dry_run st).2 = st ∧
    (upload_new_files completePut dry_run st).2 = st ∧
    (update_changed_files completePut dry_run st).2 = st ∧
    (delete_missing_files completeDelete dry_run st).2 = st ∧
    (∀ effs files,
      get_object dry_run key pfx file_paths = some (effs, files) →
      ∀ e ∈ effs, (∀ k, e ≠ Fx.s3GetObject k) ∧
        (∀ p, e ≠ Fx.writeBytes p) ∧ (∀ s d, e ≠ Fx.copy s d)) := by
  subst hdry
  refine ⟨rfl, rfl, rfl, rfl, rfl, rfl, ?_⟩
  intro effs files hsome e he
  match file_paths, hsome with
  | [], hsome =>
    simp only [get_object] at hsome
    cases hsome
    cases he
  | f0 :: rest, hsome =>
    rw [get_object_cons] at hsome
    rcases hsplit : rsplit_once_slash (pfx ++ f0) with _ | ⟨first_dir, r0⟩
    · rw [hsplit] at hsome
      cases hsome
    · rw [hsplit] at hsome
      simp only [if_true] at hsome
      cases hsome
      rcases List.mem_cons.mp he with rfl | he'
      · exact ⟨fun k => by simp, fun p => by simp, fun s d => by simp⟩
      · rcases List.mem_cons.mp he' with rfl | he''
        · exact ⟨fun k => by simp, fun p => by simp, fun s d => by simp⟩
        · cases he''

/-- Witness for `c3_dry_run_purity` at a concrete state, query and
completion function (one that would visibly mutate the state if it ran). -/
theorem c3_dry_run_purity_witness :
    (fix_pending_uploads (fun _ => [])
      (fun _ s => (1, { s with object_store := [("h", 0)] })) true
      ⟨[], [], ⟨[], []⟩⟩).2 = ⟨[], [], ⟨[], []⟩⟩ ∧
    (∀ effs files,
      get_object true "h" "out/" ["a/x"] = some (effs, files) →
      ∀ e ∈ effs, (∀ k, e ≠ Fx.s3GetObject k) ∧
        (∀ p, e ≠ Fx.writeBytes p) ∧ (∀ s d, e ≠ Fx.copy s d)) := by
  have h := c3_dry_run_purity (fun _ => []) (fun _ => []) (fun _ => [])
    (fun _ s => (1, { s with object_store := [("h", 0)] }))
    (fun _ s => (1, s)) ⟨[], [], ⟨[], []⟩⟩ "h" "out/" ["a/x"] true rfl
  exact ⟨h.1, h.2.2.2.2.2.2⟩

/-! ## Bootstrap listing and seeding (`src/s3.rs` `list`,
`src/restore.rs` `db_from_aws`) -/

/-- One object of the bucket listing: key and last-modified time. -/
structure S3ObjectMeta where
  key : String
  last_modified : Int
deriving DecidableEq

/-- `s3::list` (`src/s3.rs` lines 446-473).  The source creates the
empty `output` map and then builds, over the listing pages, an
`Iterator::map` adapter whose closure would insert every
`(key, last_modified)` pair; but that adapter — and the inner per-page
`map` — is bound to `let _ = …` and never consumed, and Rust iterator
adapters are lazy, so no closure ever runs and the returned map is
always empty. -/
def s3_list (pages : List (List S3ObjectMeta)) : List (String × Int) :=
  let output : List (String × Int) := []
  -- `let _ = pages.iter().map(|page| { let _ = page.contents().iter()
  --    .map(|file| output.insert(file.key, file.last_modified)); });`
  -- Both adapters are dropped unconsumed: nothing is inserted.
  output

/-- The pairs `s3::list`'s closures would insert if the iterators were
consumed — the behaviour the spec's §4.3 `list()` bullet describes. -/
def s3_list_if_consumed (pages : List (List S3ObjectMeta)) :
    List (String × Int) :=
  pages.flatten.map fun o => (o.key, o.last_modified)

/-- `db_from_aws` (`src/restore.rs` lines 39-78).  In dry-run it returns
at once.  Otherwise it calls `s3::list` and `HashTracker::get_all` and
builds, over the trackers, an `Iterator::map` adapter whose closure
would insert one `GlacierFile` per (tracker, path); that adapter — and
the inner per-path `map` — is bound to `let _ = …` and never consumed,
so no insert runs and the catalogue is returned unchanged. -/
def db_from_aws (dry_run : Bool) (pages : List (List S3ObjectMeta))
    (hash_trackers : List HashTracker) (c : Catalogue) : Catalogue :=
  if dry_run then c
  else
    let modified_times := s3_list pages
    -- `let _ = hash_trackers.iter().map(|hash_tracker| { … insert … });`
    -- dropped unconsumed: no GlacierFile row is inserted
    c

/-- **C2** — Bootstrap recoverability, at a failing input.  With one
object `h` (last-modified 5) in the bucket and one tracker `(h, {p})` in
the metadata store, the bootstrap inserts nothing: the glacier relation
stays empty and `s3::list` returns the empty map instead of `h ↦ 5`
(which consuming the iterators would have produced); in general
`db_from_aws` never changes the catalogue.  Both loops are lazy
`Iterator::map` adapters dropped unconsumed, contradicting the source's
own comment "Insert the file into the local database" and the spec's
§4.6/P6. -/
theorem c2_bootstrap_inserts_nothing :
    db_from_aws false [[⟨"h", 5⟩]] [⟨"h", 9, {"p"}⟩] ⟨[], []⟩ = ⟨[], []⟩ ∧
    s3_list [[⟨"h", 5⟩]] = [] ∧
    ("h", (5 : Int)) ∈ s3_list_if_consumed [[⟨"h", 5⟩]] ∧
    ("h", (5 : Int)) ∉ s3_list [[⟨"h", 5⟩]] ∧
    (∀ pages hash_trackers c,
      db_from_aws false pages hash_trackers c = c) := by
  exact ⟨rfl, rfl, by simp [s3_list_if_consumed], by simp [s3_list],
    fun pages hash_trackers c => rfl⟩

/-! ## Purge (`src/s3.rs` `permanently_delete_all`) -/

/-- One entry of a versioned-bucket listing: key and version id. -/
structure ObjectVersion where
  key : String
  version_id : String
deriving DecidableEq

/-- One page of `list_object_versions`: proper versions and delete
markers are reported in separate fields, as in the S3 API. -/
structure VersionPage where
  versions : List ObjectVersion
  delete_markers : List ObjectVersion
deriving DecidableEq

/-- A versioned bucket, as its paginated version listing. -/
structure VersionedBucket where
  pages : List VersionPage
deriving DecidableEq

/-- `s3::permanently_delete_all` (`src/s3.rs` lines 475-500): one
unpaginated `list_object_versions` call yields the first page only; the
delete batch is built from that page's `versions()` alone — the
`delete_markers()` field is never read; when the batch is empty the
function logs and returns without deleting; otherwise one
`delete_objects` call removes exactly the batched (key, version_id)
pairs. -/
def permanently_delete_all (b : VersionedBucket) : VersionedBucket :=
  let firstPage := b.pages.headD ⟨[], []⟩
  let delete_objects := firstPage.versions
  if delete_objects.isEmpty then b
  else
    { pages := b.pages.map fun page =>
        { versions := page.versions.filter fun v =>
            decide (v ∉ delete_objects),
          delete_markers := page.delete_markers } }

/-- **C9** — Purge completeness, at failing inputs.  (1) A bucket whose
only remaining entry for key `h` is a delete marker: the versions batch
is empty, so the function returns with the bucket unchanged and the
delete marker survives — yet the claim promises that afterwards no
version of any object remains.  (2) A two-page listing: only the first
page's versions are batched, so the second page's version survives. -/
theorem c9_purge_leaves_versions :
    permanently_delete_all ⟨[⟨[], [⟨"h", "m1"⟩]⟩]⟩ =
      ⟨[⟨[], [⟨"h", "m1"⟩]⟩]⟩ ∧
    (⟨"h", "m1"⟩ : ObjectVersion) ∈
      ((permanently_delete_all ⟨[⟨[], [⟨"h", "m1"⟩]⟩]⟩).pages.map
        (fun p => p.delete_markers)).flatten ∧
    (⟨"k2", "v2"⟩ : ObjectVersion) ∈
      ((permanently_delete_all
          ⟨[⟨[⟨"k1", "v1"⟩], []⟩, ⟨[⟨"k2", "v2"⟩], []⟩]⟩).pages.map
        (fun p => p.versions)).flatten := by
  refine ⟨rfl, by decide, by decide⟩

end GdaBackup
